import Mathlib

/-!
Verification of the HMP command adapter layer (monitor/hmp-cmds.c).

The definitions below are a shallow embedding of the C source.  Monitor
output is modelled as the list of strings passed to the successive
`monitor_printf`/`monitor_puts` calls (one list element per call); `emit`
concatenates them into the full text written to the session's text sink.
External collaborators (GLib's `g_strsplit`, the QAPI enum name tables,
`si_prefix`/`iec_binary_prefix` from util/cutils.c, the vCPU canonical-path
lookup and `error_reportf_err`) are not part of the source tree; they are
modelled from the specification's description of their interfaces and are
marked as such.
-/

/-! ## String infrastructure -/

/-- The full text written to the text sink: concatenation of the successive
output chunks. -/
def emit (chunks : List String) : String :=
  chunks.foldl (· ++ ·) ""

/-! ## Error relay (hmp-cmds.c:33-40, `hmp_handle_error`) -/

/-- `hmp_handle_error`: if an error descriptor is present, report it with the
"Error: " prefix, consume it and return true; otherwise return false.
`error_reportf_err` is modelled from the spec (§4.1): it emits exactly one
line containing the prefix "Error: " followed by the error's pretty
description.  The first component is the list of emitted lines, the second
the boolean result. -/
def hmp_handle_error (err : Option String) : List String × Bool :=
  match err with
  | some e => (["Error: " ++ e ++ "\n"], true)
  | none => ([], false)

/-! ## Comma splitter (hmp-cmds.c:46-59, `hmp_split_at_comma`) -/

/-- Field decomposition of a character list at commas: every comma ends a
field, empty fields included. -/
def split_fields : List Char → List (List Char)
  | [] => [[]]
  | c :: rest =>
    if c = ',' then [] :: split_fields rest
    else
      match split_fields rest with
      | [] => [[c]]
      | f :: fs => (c :: f) :: fs

/-- Modelled from the spec: GLib's `g_strsplit(str, ",", -1)`.  The empty
string yields an empty vector as a special case; otherwise the string is cut
at every comma, empty fields included, with no trimming and no quoting
(spec §4.2). -/
def g_strsplit_comma (s : String) : List String :=
  if s.data = [] then [] else (split_fields s.data).map String.mk

/-- `hmp_split_at_comma`: split at comma; a null string defaults to "". -/
def hmp_split_at_comma (str : Option String) : List String :=
  g_strsplit_comma (str.getD "")

/-- Comma-join of a list of strings (the spec's `join(xs, ",")`, §8). -/
def commaJoin : List String → String
  | [] => ""
  | [x] => x
  | x :: y :: rest => x ++ "," ++ commaJoin (y :: rest)

/-! ## info status (hmp-cmds.c:85-102, `hmp_info_status`) -/

/-- Modelled from the spec: the run-state enum of the MAPI, with its
dash-separated textual names (`RunState_str`); the spec names the `paused`
and `guest-panicked` states (§3, §8). -/
inductive RunState where
  | running
  | paused
  | guest_panicked
  | shutdown
  | internal_error
deriving DecidableEq, Repr

/-- Modelled from the spec: `RunState_str` QAPI name table. -/
def RunState_str : RunState → String
  | .running => "running"
  | .paused => "paused"
  | .guest_panicked => "guest-panicked"
  | .shutdown => "shutdown"
  | .internal_error => "internal-error"

/-- `StatusInfo` record returned by the status query (spec §3). -/
structure StatusInfo where
  running : Bool
  singlestep : Bool
  status : RunState
deriving DecidableEq, Repr

/-- `hmp_info_status`: the chunks printed for `info status`. -/
def hmp_info_status (info : StatusInfo) : List String :=
  ["VM status: " ++ (if info.running then "running" else "paused") ++
      (if info.singlestep then " (single step mode)" else "")] ++
  (if info.running = false ∧ info.status ≠ RunState.paused then
      [" (" ++ RunState_str info.status ++ ")"]
    else []) ++
  ["\n"]

/-! ## Schema-value formatter (hmp-cmds.c:305-345, `print_stats_schema_value`) -/

/-- Modelled from the spec: the QAPI stats-type enum and its name table
(`StatsType_str`), spec §3 and §4.4.1. -/
inductive StatsType where
  | cumulative
  | instant
  | peak
  | linear_histogram
  | log2_histogram
deriving DecidableEq, Repr

/-- Modelled from the spec: `StatsType_str` QAPI name table. -/
def StatsType_str : StatsType → String
  | .cumulative => "cumulative"
  | .instant => "instant"
  | .peak => "peak"
  | .linear_histogram => "linear-histogram"
  | .log2_histogram => "log2-histogram"

/-- Modelled from the spec: the QAPI stats-unit enum (§4.4.1). -/
inductive StatsUnit where
  | bytes
  | seconds
  | cycles
  | boolean
deriving DecidableEq, Repr

/-- Modelled from the spec: `StatsUnit_str` QAPI name table — the unit's
canonical textual name ("seconds", "bytes", …), spec §4.4.1. -/
def StatsUnit_str : StatsUnit → String
  | .bytes => "bytes"
  | .seconds => "seconds"
  | .cycles => "cycles"
  | .boolean => "boolean"

/-- Modelled from the spec: `si_prefix` from util/cutils.c — the SI decimal
prefix for an exponent that is a multiple of 3 in [-18, 18] (spec §4.4.1 and
glossary; exponent 0 maps to the empty prefix). -/
def si_prefix_str (exp : Int) : String :=
  if exp = -18 then "a" else if exp = -15 then "f" else if exp = -12 then "p"
  else if exp = -9 then "n" else if exp = -6 then "u" else if exp = -3 then "m"
  else if exp = 3 then "k" else if exp = 6 then "M" else if exp = 9 then "G"
  else if exp = 12 then "T" else if exp = 15 then "P" else if exp = 18 then "E"
  else ""

/-- Modelled from the spec: `iec_binary_prefix` from util/cutils.c — the IEC
binary prefix for an exponent that is a multiple of 10 in [0, 60]
(spec §4.4.1 and glossary; exponent 0 maps to the empty prefix). -/
def iec_binary_prefix_str (exp : Int) : String :=
  if exp = 10 then "Ki" else if exp = 20 then "Mi" else if exp = 30 then "Gi"
  else if exp = 40 then "Ti" else if exp = 50 then "Pi" else if exp = 60 then "Ei"
  else ""

/-- One schema entry (`StatsSchemaValue`), spec §3. -/
structure StatsSchemaValue where
  name : String
  type : StatsType
  has_unit : Bool
  unit : StatsUnit
  base : Int
  exponent : Int
  has_bucket_size : Bool
  bucket_size : Int
deriving DecidableEq, Repr

/-- `print_stats_schema_value`: the chunks printed for one schema entry.
The first chunk is the single printf `"    %s (%s%s"`; `branch.1` is the
chunk (if any) printed by the prefix/exponent if-chain and `branch.2` the
value of the local variable `unit` after it; then the unit text, the
optional bucket-size tail and the closing parenthesis. -/
def print_stats_schema_value (v : StatsSchemaValue) : List String :=
  let first := "    " ++ v.name ++ " (" ++ StatsType_str v.type ++
    (if v.has_unit = true ∨ v.exponent ≠ 0 then ", " else "")
  let unit0 : Option String :=
    if v.has_unit then
      if v.unit = StatsUnit.seconds then some "s"
      else if v.unit = StatsUnit.bytes then some "B"
      else none
    else none
  let branch : List String × Option String :=
    if unit0.isSome ∧ v.base = 10 ∧ -18 ≤ v.exponent ∧ v.exponent ≤ 18 ∧
        v.exponent % 3 = 0 then
      ([ si_prefix_str v.exponent], unit0)
    else if unit0.isSome ∧ v.base = 2 ∧ 0 ≤ v.exponent ∧ v.exponent ≤ 60 ∧
        v.exponent % 10 = 0 then
      ([ iec_binary_prefix_str v.exponent], unit0)
    else if v.exponent ≠ 0 then
      (["* " ++ toString v.base ++ "^" ++ toString v.exponent ++
          (if v.has_unit then " " else "")], none)
    else ([], unit0)
  let unitChunk : List String :=
    if v.has_unit then
      [match branch.2 with
       | some u => u
       | none => StatsUnit_str v.unit]
    else []
  let bucketChunk : List String :=
    if v.type = StatsType.linear_histogram ∧ v.has_bucket_size then
      [", bucket size=" ++ toString v.bucket_size]
    else []
  first :: branch.1 ++ unitChunk ++ bucketChunk ++ [")"]

/-- The unit text the spec expects for a schema entry with a unit: the
unit-letter for seconds/bytes, the canonical textual name otherwise
(spec §4.4.1). -/
def unit_text (v : StatsSchemaValue) : String :=
  if v.unit = StatsUnit.seconds then "s"
  else if v.unit = StatsUnit.bytes then "B"
  else StatsUnit_str v.unit

/-- The linear-histogram bucket-size tail of a schema entry (spec §4.4.1). -/
def bucket_text (v : StatsSchemaValue) : String :=
  if v.type = StatsType.linear_histogram ∧ v.has_bucket_size then
    ", bucket size=" ++ toString v.bucket_size
  else ""

/-! ## Stats renderer (hmp-cmds.c:347-421) -/

/-- Stats target dimension (`StatsTarget`): whole machine or one vCPU. -/
inductive StatsTarget where
  | vm
  | vcpu
deriving DecidableEq, Repr

/-- One element of the schema list (`StatsSchema`): the schema's value names
keyed by (provider, target).  Providers are modelled by their enumeration
index.  Schema entries beyond their names are irrelevant to the cursor walk
and are abstracted to the name. -/
structure StatsSchema where
  provider : Nat
  target : StatsTarget
  stats : List String
deriving DecidableEq, Repr

/-- One element of the result list (`StatsResult`): the provider and the
names of the reported stats, in order. -/
structure StatsResult where
  provider : Nat
  stats : List String
deriving DecidableEq, Repr

/-- `find_schema_value_list` (hmp-cmds.c:347-360): first schema node whose
(provider, target) pair matches. -/
def find_schema_value_list (list : List StatsSchema) (provider : Nat)
    (target : StatsTarget) : Option (List String) :=
  match list with
  | [] => none
  | node :: rest =>
    if node.provider = provider ∧ node.target = target then some node.stats
    else find_schema_value_list rest provider target

/-- The inner `while` loop of `print_stats_results` (hmp-cmds.c:392-400):
starting from the schema cursor (whose current entry sits at absolute schema
index `base`), advance until the entry's name equals `name`.  Returns the
absolute index of the match and the cursor suffix after the matching entry,
or `none` when the cursor is exhausted first (the "failed to find schema
entry" branch). -/
def find_schema_entry (name : String) : List String → Nat → Option (Nat × List String)
  | [], _ => none
  | c :: rest, base =>
    if name = c then some (base, rest)
    else
      match rest with
      | [] => none
      | _ :: _ => find_schema_entry name rest (base + 1)

/-- Outcome of the schema-cursor walk of `print_stats_results`. -/
inductive RenderResult where
  | ok (positions : List Nat)
  | failedEntry (name : String)
  | failedList (provider : Nat)
  | schemaNull
deriving DecidableEq, Repr

/-- True when the walk rendered every stat. -/
def RenderResult.isOk : RenderResult → Bool
  | .ok _ => true
  | _ => false

/-- The absolute schema indices of the entries rendered for the stats, in
rendering order; empty for the failure outcomes. -/
def RenderResult.positions : RenderResult → List Nat
  | .ok ps => ps
  | _ => []

/-- The outer `for` loop of `print_stats_results` (hmp-cmds.c:383-420): walk
the stats names with the schema cursor, matching each stat by the
forward-only inner search; after a rendered stat both cursors advance by
one.  `base` is the absolute schema index of the cursor's current entry.
`.ok ps` records the schema index used for each stat; `.failedEntry n` is
the "failed to find schema entry" early return; `.schemaNull` marks the
dereference of an exhausted (null) schema cursor at loop entry. -/
def render_stats : List String → List String → Nat → RenderResult
  | [], _, _ => .ok []
  | _ :: _, [], _ => .schemaNull
  | s :: srest, c :: crest, base =>
    match find_schema_entry s (c :: crest) base with
    | none => .failedEntry s
    | some (pos, after) =>
      match render_stats srest after (pos + 1) with
      | .ok ps => .ok (pos :: ps)
      | r => r

/-- `print_stats_results` (hmp-cmds.c:362-421), reduced to its cursor
behaviour: look up the schema value list for (result.provider, target) —
missing list is the "failed to find schema list" branch — then walk the
result's stats against it.  The printed text for each rendered entry is the
subject of `print_stats_schema_value` and does not affect the walk. -/
def print_stats_results (target : StatsTarget) (result : StatsResult)
    (schema : List StatsSchema) : RenderResult :=
  match find_schema_value_list schema result.provider target with
  | none => .failedList result.provider
  | some schema_value_list => render_stats result.stats schema_value_list 0

/-! ## Stats filter builder (hmp-cmds.c:424-474, `stats_filter`) -/

/-- One provider request (`StatsRequest`).  `g_new0` zero-initializes:
`has_names` false and `names` the empty list unless set. -/
structure StatsRequest where
  provider : Nat
  has_names : Bool
  names : List String
deriving DecidableEq, Repr

/-- The filter record (`StatsFilter`).  `g_malloc0` zero-initializes all
fields. -/
structure StatsFilter where
  target : StatsTarget
  has_vcpus : Bool := false
  vcpus : List String := []
  has_providers : Bool := false
  providers : List StatsRequest := []
deriving DecidableEq, Repr

/-- The request built for one kept provider index (hmp-cmds.c:461-466):
names attached exactly when a name selector is present and differs from
"*". -/
def stats_request (names : Option String) (provider_idx : Nat) : StatsRequest :=
  match names with
  | some s =>
    if s = "*" then { provider := provider_idx, has_names := false, names := [] }
    else { provider := provider_idx, has_names := true,
           names := hmp_split_at_comma (some s) }
  | none => { provider := provider_idx, has_names := false, names := [] }

/-- `stats_filter` (hmp-cmds.c:424-474).  `nprov` is the provider-universe
size (`STATS_PROVIDER__MAX`); an absent provider selector is that sentinel
value.  `get_cpu_path` is modelled from the spec: the canonical object path
of the vCPU identified by the index (`qemu_get_cpu` +
`object_get_canonical_path`, spec §4.3: "filter construction itself does not
fail; invalid cpu-index is detected downstream by the MAPI").  The loop
prepends (`QAPI_LIST_PREPEND`) one request per kept provider. -/
def stats_filter (nprov : Nat) (get_cpu_path : Int → String)
    (target : StatsTarget) (names : Option String) (cpu_index : Int)
    (provider : Nat) : StatsFilter :=
  let filter : StatsFilter :=
    match target with
    | StatsTarget.vm => { target := StatsTarget.vm }
    | StatsTarget.vcpu =>
      { target := StatsTarget.vcpu, has_vcpus := true,
        vcpus := [get_cpu_path cpu_index] }
  if names = none ∧ provider = nprov then
    filter
  else
    let request_list := (List.range nprov).foldl
      (fun acc provider_idx =>
        if provider = nprov ∨ provider = provider_idx then
          stats_request names provider_idx :: acc
        else acc) []
    { filter with has_providers := true, providers := request_list }

/-! ## info stats shim (hmp-cmds.c:476-535, `hmp_info_stats`) -/

/-- `hmp_info_stats`: the diagnostic lines printed by the shim.  The QAPI
enum parsers, the session's current-CPU index, and the two MAPI queries are
external collaborators passed as arguments; a query's `.error e` carries the
error's pretty description, printed on the `exit` path as `"%s\n"`.  The
text rendered for successful results by `print_stats_results` (whose cursor
behaviour is modelled above) is abstracted as the `render` argument, since
the shim merely concatenates it. -/
def hmp_info_stats
    (parse_target : String → Option StatsTarget)
    (parse_provider : String → Option Nat)
    (nprov : Nat) (get_cpu_path : Int → String) (monitor_cpu_index : Int)
    (query_schemas : Bool → Nat → Except String (List StatsSchema))
    (query_stats : StatsFilter → Except String (List StatsResult))
    (render : StatsTarget → Bool → StatsResult → List StatsSchema → List String)
    (target_str : String) (provider_str : Option String)
    (names : Option String) : List String :=
  match parse_target target_str with
  | none => ["invalid stats target " ++ target_str ++ "\n"]
  | some target =>
    let provider_parse : Except (List String) Nat :=
      match provider_str with
      | none => Except.ok nprov
      | some ps =>
        match parse_provider ps with
        | none => Except.error ["invalid stats provider " ++ ps ++ "\n"]
        | some p => Except.ok p
    match provider_parse with
    | Except.error out => out
    | Except.ok provider =>
      match query_schemas provider_str.isSome provider with
      | Except.error e => [e ++ "\n"]
      | Except.ok schema =>
        let filter :=
          match target with
          | StatsTarget.vm =>
            stats_filter nprov get_cpu_path StatsTarget.vm names (-1) provider
          | StatsTarget.vcpu =>
            stats_filter nprov get_cpu_path StatsTarget.vcpu names
              monitor_cpu_index provider
        match query_stats filter with
        | Except.error e => [e ++ "\n"]
        | Except.ok stats =>
          (stats.map (fun r => render target provider_str.isNone r schema)).flatten

/-! ## Virtio list dumpers (hmp-cmds.c:537-602) -/

/-- Zero-padded lowercase hexadecimal of the given width (`"%016PRIx64"`). -/
def hex_pad (width v : Nat) : String :=
  let ds := Nat.toDigits 16 v
  String.mk (List.replicate (width - ds.length) '0' ++ ds)

/-- The shared string-list loop of the three dumpers: `"\t%s"` per element,
`",\n"` between consecutive elements. -/
def dump_str_list : List String → List String
  | [] => []
  | [x] => ["\t" ++ x]
  | x :: y :: rest => ("\t" ++ x) :: ",\n" :: dump_str_list (y :: rest)

/-- `VhostDeviceProtocols` (spec §3): protocol string list plus optional
unknown-bits field. -/
structure VhostDeviceProtocols where
  protocols : List String
  has_unknown_protocols : Bool
  unknown_protocols : Nat
deriving DecidableEq, Repr

/-- `VirtioDeviceStatus` (spec §3). -/
structure VirtioDeviceStatus where
  statuses : List String
  has_unknown_statuses : Bool
  unknown_statuses : Nat
deriving DecidableEq, Repr

/-- `VirtioDeviceFeatures` (spec §3): transports and device features lists
plus optional unknown-bits field. -/
structure VirtioDeviceFeatures where
  transports : List String
  dev_features : List String
  has_unknown_dev_features : Bool
  unknown_dev_features : Nat
deriving DecidableEq, Repr

/-- `hmp_virtio_dump_protocols` (hmp-cmds.c:537-553). -/
def hmp_virtio_dump_protocols (pcol : VhostDeviceProtocols) : List String :=
  dump_str_list pcol.protocols ++ ["\n"] ++
  (if pcol.has_unknown_protocols then
      ["  unknown-protocols(0x" ++ hex_pad 16 pcol.unknown_protocols ++ ")\n"]
    else [])

/-- `hmp_virtio_dump_status` (hmp-cmds.c:555-571). -/
def hmp_virtio_dump_status (status : VirtioDeviceStatus) : List String :=
  dump_str_list status.statuses ++ ["\n"] ++
  (if status.has_unknown_statuses then
      ["  unknown-statuses(0x" ++ hex_pad 16 status.unknown_statuses ++ ")\n"]
    else [])

/-- `hmp_virtio_dump_features` (hmp-cmds.c:573-602): transports list, then —
only when `dev_features` is non-empty — the device-features list with its
own trailing newline, then the optional unknown-bits line. -/
def hmp_virtio_dump_features (features : VirtioDeviceFeatures) : List String :=
  dump_str_list features.transports ++ ["\n"] ++
  (if features.dev_features ≠ [] then
      dump_str_list features.dev_features ++ ["\n"]
    else []) ++
  (if features.has_unknown_dev_features then
      ["  unknown-features(0x" ++ hex_pad 16 features.unknown_dev_features ++ ")\n"]
    else [])

/-! ## Helper lemmas -/

theorem emit_foldl (cs : List String) :
    ∀ init : String, cs.foldl (· ++ ·) init = init ++ emit cs := by
  induction cs with
  | nil => intro init; simp [emit, String.append_empty]
  | cons d ds ih =>
    intro init
    simp only [emit, List.foldl_cons]
    rw [ih (init ++ d), ih ("" ++ d), String.empty_append, String.append_assoc]

theorem emit_cons (c : String) (cs : List String) :
    emit (c :: cs) = c ++ emit cs := by
  simp only [emit, List.foldl_cons]
  rw [emit_foldl, String.empty_append]
  rfl

theorem emit_nil : emit [] = "" := rfl

theorem emit_append (as bs : List String) :
    emit (as ++ bs) = emit as ++ emit bs := by
  induction as with
  | nil => rw [List.nil_append, emit_nil, String.empty_append]
  | cons a as ih =>
    rw [List.cons_append, emit_cons, emit_cons, ih, String.append_assoc]

theorem string_mk_data (s : String) : String.mk s.data = s := rfl

theorem string_data_ne_nil {s : String} (h : s ≠ "") : s.data ≠ [] := by
  intro hd
  exact h (String.ext (hd.trans rfl))

/-! ## Comma splitter lemmas -/

theorem split_fields_ne_nil : ∀ l : List Char, split_fields l ≠ []
  | [] => by simp [split_fields]
  | c :: rest => by
    simp only [split_fields]
    by_cases hc : c = ','
    · simp [hc]
    · simp only [hc, if_false]
      cases h : split_fields rest <;> simp

theorem split_fields_no_comma : ∀ f : List Char, ',' ∉ f → split_fields f = [f]
  | [], _ => rfl
  | c :: rest, h => by
    have hc : ¬c = ',' := fun hc => h (hc ▸ List.mem_cons_self c rest)
    have hrest : ',' ∉ rest := fun hr => h (List.mem_cons_of_mem c hr)
    simp only [split_fields, hc, if_false, split_fields_no_comma rest hrest]

theorem split_fields_append : ∀ (f rest : List Char), ',' ∉ f →
    split_fields (f ++ ',' :: rest) = f :: split_fields rest
  | [], rest, _ => by simp [split_fields]
  | c :: f', rest, h => by
    have hc : ¬c = ',' := fun hc => h (hc ▸ List.mem_cons_self c f')
    have hf' : ',' ∉ f' := fun hr => h (List.mem_cons_of_mem c hr)
    have ih := split_fields_append f' rest hf'
    show split_fields (c :: (f' ++ ',' :: rest)) = (c :: f') :: split_fields rest
    simp only [split_fields, hc, if_false, ih]

theorem commaJoin_cons_cons (x y : String) (rest : List String) :
    (commaJoin (x :: y :: rest)).data =
      x.data ++ ',' :: (commaJoin (y :: rest)).data := by
  show (x ++ "," ++ commaJoin (y :: rest)).data = _
  rw [String.data_append, String.data_append, List.append_assoc]
  rw [show (("," : String).data : List Char) = [','] from rfl]
  rfl

theorem commaJoin_data_ne_nil (y : String) (rest : List String) (hy : y ≠ "") :
    (commaJoin (y :: rest)).data ≠ [] := by
  cases rest with
  | nil => exact string_data_ne_nil hy
  | cons z zs =>
    rw [commaJoin_cons_cons]
    simp [string_data_ne_nil hy]

theorem split_comma_join : ∀ xs : List String,
    (∀ x ∈ xs, x ≠ "" ∧ ',' ∉ x.data) →
    hmp_split_at_comma (some (commaJoin xs)) = xs
  | [], _ => rfl
  | [x], h => by
    obtain ⟨hx, hc⟩ := h x (List.mem_singleton.mpr rfl)
    show g_strsplit_comma (commaJoin [x]) = [x]
    show g_strsplit_comma x = [x]
    rw [g_strsplit_comma, if_neg (string_data_ne_nil hx),
      split_fields_no_comma x.data hc]
    simp [string_mk_data]
  | x :: y :: rest, h => by
    obtain ⟨hx, hc⟩ := h x (List.mem_cons_self x (y :: rest))
    have hyr : ∀ z ∈ y :: rest, z ≠ "" ∧ ',' ∉ z.data :=
      fun z hz => h z (List.mem_cons_of_mem x hz)
    have hy : y ≠ "" := (hyr y (List.mem_cons_self y rest)).1
    have ih := split_comma_join (y :: rest) hyr
    show g_strsplit_comma (commaJoin (x :: y :: rest)) = x :: y :: rest
    have hdata := commaJoin_cons_cons x y rest
    rw [g_strsplit_comma, hdata, if_neg (by simp [string_data_ne_nil hx]),
      split_fields_append x.data _ hc]
    have ihu : g_strsplit_comma (commaJoin (y :: rest)) = y :: rest := ih
    rw [g_strsplit_comma, if_neg (commaJoin_data_ne_nil y rest hy)] at ihu
    simp only [List.map_cons, string_mk_data, ihu]

/-! ## Claim C6 -/

/-- C6, counterexample: the claim quantifies over every list of non-empty
strings, but a field containing a comma breaks the left-inverse law:
`["a,b"]` has no empty element, yet splitting its comma-join yields
`["a", "b"]`. -/
theorem split_comma_join_cex :
    ("a,b" : String) ≠ "" ∧
    hmp_split_at_comma (some (commaJoin ["a,b"])) = ["a", "b"] ∧
    hmp_split_at_comma (some (commaJoin ["a,b"])) ≠ ["a,b"] := by decide

/-- C6 (amended): the comma splitter is a left inverse of comma-join on
sequences of fields that are non-empty and comma-free:
`split(join(xs, ",")) = xs` for every `xs` whose elements are non-empty and
contain no comma; moreover `split("")` and `split(null)` are the empty
sequence. -/
theorem split_at_comma_left_inverse :
    (∀ xs : List String, (∀ x ∈ xs, x ≠ "" ∧ ',' ∉ x.data) →
        hmp_split_at_comma (some (commaJoin xs)) = xs) ∧
    hmp_split_at_comma (some "") = [] ∧
    hmp_split_at_comma none = [] :=
  ⟨split_comma_join, by decide, by decide⟩

/-- C6, witness: the amended law evaluated at `["ab", "c"]`. -/
theorem split_at_comma_left_inverse_witness :
    hmp_split_at_comma (some (commaJoin ["ab", "c"])) = ["ab", "c"] :=
  split_at_comma_left_inverse.1 ["ab", "c"] (by decide)

/-! ## Claim C8 -/

/-- C8: for `info status`, when running is true the status enum does not
affect the rendered output (only singlestep does); with running and no
singlestep the line is "VM status: running\n" with " (single step mode)"
inserted exactly when singlestep; and with running=false, singlestep=false,
status=guest-panicked the line is "VM status: paused (guest-panicked)\n". -/
theorem info_status_spec :
    (∀ i i' : StatusInfo, i.running = true → i'.running = true →
        i.singlestep = i'.singlestep → hmp_info_status i = hmp_info_status i') ∧
    (∀ i : StatusInfo, i.running = true →
        emit (hmp_info_status i) =
          "VM status: running" ++
            (if i.singlestep then " (single step mode)" else "") ++ "\n") ∧
    (∀ i : StatusInfo, i.running = false → i.singlestep = false →
        i.status = RunState.guest_panicked →
        emit (hmp_info_status i) = "VM status: paused (guest-panicked)\n") := by
  refine ⟨?_, ?_, ?_⟩
  · intro i i' h h' hs
    simp [hmp_info_status, h, h', hs]
  · intro i h
    cases hss : i.singlestep <;>
      simp [hmp_info_status, h, hss, emit_cons, emit_nil, String.append_empty]
  · intro i h hs hstat
    simp [hmp_info_status, h, hs, hstat, RunState_str, emit_cons, emit_nil,
      String.append_empty]

/-- C8, witness: the theorem applied at concrete status records. -/
theorem info_status_spec_witness :
    emit (hmp_info_status ⟨false, false, RunState.guest_panicked⟩) =
      "VM status: paused (guest-panicked)\n" :=
  info_status_spec.2.2 ⟨false, false, RunState.guest_panicked⟩ rfl rfl rfl

/-! ## Stats renderer lemmas -/

theorem find_schema_entry_sublist :
    ∀ {l₁ l₂ : List String}, l₁.Sublist l₂ →
      ∀ s srest base, l₁ = s :: srest →
        ∃ pos after, find_schema_entry s l₂ base = some (pos, after) ∧
          base ≤ pos ∧ srest.Sublist after := by
  intro l₁ l₂ h
  induction h with
  | slnil =>
    intro s srest base he
    cases he
  | @cons l₁x l₂x a h ih =>
    intro s srest base he
    subst he
    by_cases hs : s = a
    · subst hs
      refine ⟨base, l₂x, ?_, Nat.le_refl base, ?_⟩
      · simp [find_schema_entry]
      · exact (List.sublist_cons_self s srest).trans h
    · cases l₂x with
      | nil => exact absurd (List.sublist_nil.mp h) (by simp)
      | cons c cr =>
        obtain ⟨pos, after, hfind, hbase, hsub⟩ := ih s srest (base + 1) rfl
        refine ⟨pos, after, ?_, Nat.le_of_succ_le hbase, hsub⟩
        simp only [find_schema_entry, hs, if_false]
        exact hfind
  | @cons₂ l₁x l₂x a h ih =>
    intro s srest base he
    injection he with he1 he2
    subst he1
    subst he2
    refine ⟨base, l₂x, ?_, Nat.le_refl base, h⟩
    simp [find_schema_entry]

theorem render_stats_sublist :
    ∀ (stats : List String), ∀ (schema : List String) (base : Nat),
      stats.Sublist schema →
      ∃ ps, render_stats stats schema base = RenderResult.ok ps ∧
        ps.length = stats.length ∧ ps.Pairwise (· < ·) ∧ ∀ p ∈ ps, base ≤ p := by
  intro stats
  induction stats with
  | nil =>
    intro schema base _
    exact ⟨[], rfl, rfl, List.Pairwise.nil, by simp⟩
  | cons s srest ih =>
    intro schema base h
    obtain ⟨pos, after, hfind, hbase, hsub⟩ :=
      find_schema_entry_sublist h s srest base rfl
    obtain ⟨ps, hrender, hlen, hpair, hge⟩ := ih after (pos + 1) hsub
    refine ⟨pos :: ps, ?_, by simp [hlen], ?_, ?_⟩
    · cases schema with
      | nil => simp [find_schema_entry] at hfind
      | cons c crest =>
        simp only [render_stats, hfind, hrender]
    · exact List.pairwise_cons.mpr
        ⟨fun p hp => Nat.lt_of_succ_le (hge p hp), hpair⟩
    · intro p hp
      rcases List.mem_cons.mp hp with rfl | hp'
      · exact hbase
      · exact Nat.le_trans hbase (Nat.le_of_succ_le (hge p hp'))

/-! ## Claim C1 -/

/-- C1: for every schema value-list and every stats list whose names form a
subsequence of the schema names in the same relative order, the renderer
walk of `print_stats_results` renders every stat — neither the "failed to
find schema entry" branch nor the exhausted-cursor dereference is reached —
and the schema cursor only moves forward, the absolute schema positions used
being strictly increasing (so it advances by at least one entry per rendered
stat and never resets). -/
theorem print_stats_results_subsequence
    (target : StatsTarget) (result : StatsResult) (schema : List StatsSchema)
    (names : List String)
    (hfind : find_schema_value_list schema result.provider target = some names)
    (hsub : result.stats.Sublist names) :
    (print_stats_results target result schema).isOk = true ∧
    (print_stats_results target result schema).positions.length
      = result.stats.length ∧
    (print_stats_results target result schema).positions.Pairwise (· < ·) := by
  obtain ⟨ps, hr, hlen, hpair, _⟩ := render_stats_sublist result.stats names 0 hsub
  simp only [print_stats_results, hfind, hr, RenderResult.isOk,
    RenderResult.positions]
  exact ⟨trivial, hlen, hpair⟩

/-- C1, witness: the theorem evaluated on a concrete schema and stats
subsequence. -/
theorem print_stats_results_subsequence_witness :
    (print_stats_results StatsTarget.vm ⟨0, ["a", "c"]⟩
        [⟨0, StatsTarget.vm, ["a", "b", "c"]⟩]).isOk = true ∧
    (print_stats_results StatsTarget.vm ⟨0, ["a", "c"]⟩
        [⟨0, StatsTarget.vm, ["a", "b", "c"]⟩]).positions.length = 2 ∧
    (print_stats_results StatsTarget.vm ⟨0, ["a", "c"]⟩
        [⟨0, StatsTarget.vm, ["a", "b", "c"]⟩]).positions.Pairwise (· < ·) :=
  print_stats_results_subsequence StatsTarget.vm ⟨0, ["a", "c"]⟩
    [⟨0, StatsTarget.vm, ["a", "b", "c"]⟩] ["a", "b", "c"]
    (by decide) (by decide)

/-! ## Stats filter lemmas -/

theorem foldl_prepend_filter {q : Nat → Prop} [DecidablePred q]
    (f : Nat → StatsRequest) :
    ∀ (l : List Nat) (init : List StatsRequest),
      l.foldl (fun acc i => if q i then f i :: acc else acc) init
        = ((l.filter (fun i => decide (q i))).map f).reverse ++ init := by
  intro l
  induction l with
  | nil => intro init; simp
  | cons a l ih =>
    intro init
    rw [List.foldl_cons]
    by_cases h : q a
    · rw [if_pos h, ih, List.filter_cons_of_pos (by simp [h]), List.map_cons,
        List.reverse_cons, List.append_assoc]
      rfl
    · rw [if_neg h, ih, List.filter_cons_of_neg (by simp [h])]

theorem stats_filter_providers_eq (nprov : Nat) (gp : Int → String)
    (target : StatsTarget) (names : Option String) (cpu : Int) (provider : Nat)
    (h : names ≠ none ∨ provider ≠ nprov) :
    (stats_filter nprov gp target names cpu provider).has_providers = true ∧
    (stats_filter nprov gp target names cpu provider).providers
      = (((List.range nprov).filter
            (fun i => decide (provider = nprov ∨ provider = i))).map
          (stats_request names)).reverse := by
  have hcond : ¬(names = none ∧ provider = nprov) := by
    rcases h with h | h
    · exact fun hc => h hc.1
    · exact fun hc => h hc.2
  constructor
  · cases target <;> simp [stats_filter, hcond]
  · cases target <;>
      simp [stats_filter, hcond, foldl_prepend_filter (stats_request names)]

theorem stats_request_provider (names : Option String) (i : Nat) :
    (stats_request names i).provider = i := by
  cases names with
  | none => rfl
  | some s => by_cases h : s = "*" <;> simp [stats_request, h]

theorem map_provider_map_request (names : Option String) (l : List Nat) :
    (l.map (stats_request names)).map (fun r => r.provider) = l := by
  rw [List.map_map]
  have hfun : ((fun r : StatsRequest => r.provider) ∘ stats_request names)
      = fun i => i := funext (stats_request_provider names)
  rw [hfun]
  exact List.map_id' l

theorem filter_range_eq_single : ∀ n p : Nat, p < n →
    (List.range n).filter (fun i => decide (p = i)) = [p] := by
  intro n
  induction n with
  | zero => intro p hp; omega
  | succ n ih =>
    intro p hp
    rw [List.range_succ, List.filter_append]
    by_cases h : p < n
    · rw [ih p h]
      have hpn : p ≠ n := by omega
      simp [hpn]
    · have hpn : p = n := by omega
      subst hpn
      have hnil : (List.range p).filter (fun i => decide (p = i)) = [] := by
        rw [List.filter_eq_nil_iff]
        intro a ha
        have := List.mem_range.mp ha
        simp only [decide_eq_true_eq]
        omega
      simp [hnil]

/-! ## Claim C2 -/

/-- C2: the stats filter builder returns a bare filter (has-providers unset,
no request list) exactly when both selectors are absent; otherwise it
attaches exactly one request per kept provider — all providers when the
provider selector is absent, exactly the selected one otherwise — and each
request's names field is unset for an absent or "*" name selector and equal
to the comma-split of the name selector otherwise. -/
theorem stats_filter_spec :
    (∀ (nprov : Nat) (gp : Int → String) (target : StatsTarget) (cpu : Int),
        (stats_filter nprov gp target none cpu nprov).has_providers = false ∧
        (stats_filter nprov gp target none cpu nprov).providers = []) ∧
    (∀ (nprov : Nat) (gp : Int → String) (target : StatsTarget)
        (names : Option String) (cpu : Int) (provider : Nat),
        names ≠ none ∨ provider ≠ nprov →
        (stats_filter nprov gp target names cpu provider).has_providers = true ∧
        ((stats_filter nprov gp target names cpu provider).providers.map
            (fun r => r.provider)
          = ((List.range nprov).filter
              (fun i => decide (provider = nprov ∨ provider = i))).reverse) ∧
        (provider = nprov →
          (stats_filter nprov gp target names cpu provider).providers.map
              (fun r => r.provider) = (List.range nprov).reverse) ∧
        (provider < nprov →
          (stats_filter nprov gp target names cpu provider).providers.map
              (fun r => r.provider) = [provider]) ∧
        (∀ r ∈ (stats_filter nprov gp target names cpu provider).providers,
          (names = none ∨ names = some "*" →
            r.has_names = false ∧ r.names = []) ∧
          (∀ s, names = some s → s ≠ "*" →
            r.has_names = true ∧ r.names = hmp_split_at_comma (some s)))) := by
  constructor
  · intro nprov gp target cpu
    cases target <;> simp [stats_filter]
  · intro nprov gp target names cpu provider h
    obtain ⟨hp, hlist⟩ := stats_filter_providers_eq nprov gp target names cpu provider h
    have hmap : (stats_filter nprov gp target names cpu provider).providers.map
        (fun r => r.provider)
        = ((List.range nprov).filter
            (fun i => decide (provider = nprov ∨ provider = i))).reverse := by
      rw [hlist, List.map_reverse, map_provider_map_request]
    refine ⟨hp, hmap, ?_, ?_, ?_⟩
    · intro hpn
      rw [hmap]
      congr 1
      rw [List.filter_eq_self]
      intro a _
      simp [hpn]
    · intro hlt
      have hne : provider ≠ nprov := by omega
      rw [hmap]
      have hcongr : (List.range nprov).filter
          (fun i => decide (provider = nprov ∨ provider = i))
          = (List.range nprov).filter (fun i => decide (provider = i)) := by
        apply List.filter_congr
        intro a _
        simp [hne]
      rw [hcongr, filter_range_eq_single nprov provider hlt]
      rfl
    · intro r hr
      rw [hlist, List.mem_reverse] at hr
      obtain ⟨i, _, hi⟩ := List.mem_map.mp hr
      subst hi
      constructor
      · rintro (hn | hn) <;> subst hn <;> simp [stats_request]
      · intro s hn hs
        subst hn
        simp [stats_request, hs]

/-- C2, witness: both selectors present/absent combinations at concrete
inputs, through the theorem. -/
theorem stats_filter_spec_witness :
    ((stats_filter 2 (fun _ => "cpu") StatsTarget.vm none 0 2).has_providers
        = false) ∧
    ((stats_filter 2 (fun _ => "cpu") StatsTarget.vm (some "a,b") 0 2).providers.map
        (fun r => r.provider) = (List.range 2).reverse) :=
  ⟨(stats_filter_spec.1 2 (fun _ => "cpu") StatsTarget.vm 0).1,
   (stats_filter_spec.2 2 (fun _ => "cpu") StatsTarget.vm (some "a,b") 0 2
      (Or.inl (by simp))).2.2.1 rfl⟩

/-! ## Claim C9 -/

/-- C9: when the builder attaches provider requests, the request list is in
reverse provider-enumeration order — the loop prepends, so the kept
providers appear with strictly decreasing indices, the highest kept index
first and index 0 (when kept) last. -/
theorem stats_filter_request_order (nprov : Nat) (gp : Int → String)
    (target : StatsTarget) (names : Option String) (cpu : Int) (provider : Nat)
    (h : names ≠ none ∨ provider ≠ nprov) :
    (stats_filter nprov gp target names cpu provider).providers
      = (((List.range nprov).filter
            (fun i => decide (provider = nprov ∨ provider = i))).map
          (stats_request names)).reverse ∧
    ((stats_filter nprov gp target names cpu provider).providers.map
        (fun r => r.provider)).Pairwise (· > ·) := by
  obtain ⟨_, hlist⟩ := stats_filter_providers_eq nprov gp target names cpu provider h
  refine ⟨hlist, ?_⟩
  rw [hlist, List.map_reverse, map_provider_map_request, List.pairwise_reverse]
  exact List.Pairwise.filter _ (List.pairwise_lt_range nprov)

/-- C9, witness: with an absent provider selector and a three-provider
universe the request list carries providers [2, 1, 0]. -/
theorem stats_filter_request_order_witness :
    (stats_filter 3 (fun _ => "cpu") StatsTarget.vm (some "*") 0 3).providers
      = (((List.range 3).filter
            (fun i => decide (3 = 3 ∨ 3 = i))).map (stats_request (some "*"))).reverse ∧
    ((stats_filter 3 (fun _ => "cpu") StatsTarget.vm (some "*") 0 3).providers.map
        (fun r => r.provider)).Pairwise (· > ·) :=
  stats_filter_request_order 3 (fun _ => "cpu") StatsTarget.vm (some "*") 0 3
    (Or.inl (by simp))

/-! ## Claim C4 -/

/-- C4: stats filter construction is total — for every target (including
VCPU), every cpu-index (including ones that identify no vCPU), every name
selector and every provider selector, the builder produces a filter with the
requested target; for the VCPU target the vcpu list is the single canonical
path produced by the (spec-modelled, total) path lookup, whatever the index,
so an invalid cpu-index surfaces only downstream in the MAPI query. -/
theorem stats_filter_total (nprov : Nat) (gp : Int → String)
    (target : StatsTarget) (names : Option String) (cpu_index : Int)
    (provider : Nat) :
    (stats_filter nprov gp target names cpu_index provider).target = target ∧
    (target = StatsTarget.vcpu →
      (stats_filter nprov gp target names cpu_index provider).has_vcpus = true ∧
      (stats_filter nprov gp target names cpu_index provider).vcpus
        = [gp cpu_index]) ∧
    (target = StatsTarget.vm →
      (stats_filter nprov gp target names cpu_index provider).has_vcpus = false ∧
      (stats_filter nprov gp target names cpu_index provider).vcpus = []) := by
  by_cases hc : names = none ∧ provider = nprov <;>
    cases target <;> simp [stats_filter, hc]

/-- C4, witness: the builder evaluated at the VCPU target with a cpu-index
(-1) that identifies no vCPU. -/
theorem stats_filter_total_witness :
    (stats_filter 2 (fun _ => "/machine/none") StatsTarget.vcpu none (-1)
        2).has_vcpus = true ∧
    (stats_filter 2 (fun _ => "/machine/none") StatsTarget.vcpu none (-1)
        2).vcpus = [(fun _ : Int => "/machine/none") (-1)] :=
  (stats_filter_total 2 (fun _ => "/machine/none") StatsTarget.vcpu none (-1)
    2).2.1 rfl

/-! ## Claim C3 -/

/-- C3, counterexample: the info stats shim does not route MAPI query errors
through the error relay.  With the schema query failing with pretty
description "boom", the shim prints the bare line "boom\n" — the relay, by
contrast, always prints a line carrying the "Error: " prefix, which "boom\n"
lacks. -/
theorem hmp_info_stats_error_cex :
    hmp_info_stats (fun _ => some StatsTarget.vm) (fun _ => none) 1
        (fun _ => "cpu") 0 (fun _ _ => Except.error "boom")
        (fun _ => Except.error "boom") (fun _ _ _ _ => []) "vm" none none
      = ["boom\n"] ∧
    (hmp_handle_error (some "boom")).1 = ["Error: boom\n"] ∧
    List.isPrefixOf ("Error: ").data ("boom\n").data = false := by decide

/-- C3 (amended): the error relay `hmp_handle_error` emits exactly one line
prefixed "Error: ", consumes the descriptor and returns true (and does
nothing on an absent error); the info stats shim, however, does not use the
relay for the schema-query and stats-query errors: it prints each such
error's pretty description directly as "<pretty>\n", without the "Error: "
prefix, and frees it. -/
theorem hmp_info_stats_error_paths :
    (∀ e, hmp_handle_error (some e) = (["Error: " ++ e ++ "\n"], true)) ∧
    hmp_handle_error none = ([], false) ∧
    (∀ (parse_target : String → Option StatsTarget)
        (parse_provider : String → Option Nat) (nprov : Nat)
        (gp : Int → String) (mci : Int)
        (query_schemas : Bool → Nat → Except String (List StatsSchema))
        (query_stats : StatsFilter → Except String (List StatsResult))
        (render : StatsTarget → Bool → StatsResult → List StatsSchema → List String)
        (tstr : String) (nms : Option String) (t : StatsTarget) (e : String),
        parse_target tstr = some t →
        query_schemas false nprov = Except.error e →
        hmp_info_stats parse_target parse_provider nprov gp mci query_schemas
            query_stats render tstr none nms = [e ++ "\n"]) ∧
    (∀ (parse_target : String → Option StatsTarget)
        (parse_provider : String → Option Nat) (nprov : Nat)
        (gp : Int → String) (mci : Int)
        (query_schemas : Bool → Nat → Except String (List StatsSchema))
        (query_stats : StatsFilter → Except String (List StatsResult))
        (render : StatsTarget → Bool → StatsResult → List StatsSchema → List String)
        (tstr : String) (nms : Option String) (t : StatsTarget)
        (schema : List StatsSchema) (e : String),
        parse_target tstr = some t →
        query_schemas false nprov = Except.ok schema →
        (∀ f, query_stats f = Except.error e) →
        hmp_info_stats parse_target parse_provider nprov gp mci query_schemas
            query_stats render tstr none nms = [e ++ "\n"]) := by
  refine ⟨fun e => rfl, rfl, ?_, ?_⟩
  · intro pt pp nprov gp mci qs qst rend tstr nms t e hpt hqs
    simp [hmp_info_stats, hpt, hqs]
  · intro pt pp nprov gp mci qs qst rend tstr nms t schema e hpt hqs hqst
    cases t <;> simp [hmp_info_stats, hpt, hqs, hqst]

/-- C3, witness: the amended description evaluated on concrete collaborators
whose schema query fails with pretty description "boom". -/
theorem hmp_info_stats_error_paths_witness :
    hmp_info_stats (fun _ => some StatsTarget.vm) (fun _ => none) 1
        (fun _ => "cpu") 0 (fun _ _ => Except.error "boom")
        (fun _ => Except.error "boom") (fun _ _ _ _ => []) "vm" none none
      = ["boom" ++ "\n"] :=
  hmp_info_stats_error_paths.2.2.1 (fun _ => some StatsTarget.vm)
    (fun _ => none) 1 (fun _ => "cpu") 0 (fun _ _ => Except.error "boom")
    (fun _ => Except.error "boom") (fun _ _ _ _ => []) "vm" none
    StatsTarget.vm "boom" rfl rfl

/-! ## Virtio dumper lemmas -/

theorem append_ne_of_head_ne {a x q : String} {ca cq : Char}
    {ta tq : List Char} (ha : a.data = ca :: ta) (hq : q.data = cq :: tq)
    (hne : ca ≠ cq) : a ++ x ≠ q := by
  intro h
  have hd := congrArg String.data h
  simp only [String.data_append] at hd
  rw [ha, hq] at hd
  simp only [List.cons_append] at hd
  injection hd with h1 _
  exact hne h1

theorem append3_ne_of_head_ne {a x y q : String} {ca cq : Char}
    {ta tq : List Char} (ha : a.data = ca :: ta) (hq : q.data = cq :: tq)
    (hne : ca ≠ cq) : a ++ x ++ y ≠ q := by
  intro h
  have hd := congrArg String.data h
  simp only [String.data_append] at hd
  rw [ha, hq] at hd
  simp only [List.cons_append] at hd
  injection hd with h1 _
  exact hne h1

theorem tab_chunk_ne_sep (x : String) : "\t" ++ x ≠ ",\n" :=
  append_ne_of_head_ne rfl rfl (by decide)

theorem tab_chunk_ne_nl (x : String) : "\t" ++ x ≠ "\n" :=
  append_ne_of_head_ne rfl rfl (by decide)

theorem dump_str_list_count_sep : ∀ l : List String, l ≠ [] →
    (dump_str_list l).count ",\n" = l.length - 1
  | [], h => absurd rfl h
  | [x], _ => by
    have hs : ",\n" ≠ "\t" ++ x := Ne.symm (tab_chunk_ne_sep x)
    simp [dump_str_list, List.count_cons, List.count_nil, hs]
  | x :: y :: rest, _ => by
    have ih := dump_str_list_count_sep (y :: rest) (by simp)
    simp only [dump_str_list, List.count_cons, ih]
    simp [tab_chunk_ne_sep x, List.length_cons]

theorem dump_str_list_count_nl : ∀ l : List String,
    (dump_str_list l).count "\n" = 0
  | [] => rfl
  | [x] => by
    have hs : "\n" ≠ "\t" ++ x := Ne.symm (tab_chunk_ne_nl x)
    simp [dump_str_list, List.count_cons, List.count_nil, hs]
  | x :: y :: rest => by
    have ih := dump_str_list_count_nl (y :: rest)
    simp only [dump_str_list, List.count_cons, ih]
    simp [tab_chunk_ne_nl x]

theorem unknown_protocols_chunk_ne (n : Nat) (q : String) {cq : Char}
    {tq : List Char} (hq : q.data = cq :: tq) (hne : ' ' ≠ cq) :
    "  unknown-protocols(0x" ++ hex_pad 16 n ++ ")\n" ≠ q :=
  append3_ne_of_head_ne rfl hq hne

theorem unknown_statuses_chunk_ne (n : Nat) (q : String) {cq : Char}
    {tq : List Char} (hq : q.data = cq :: tq) (hne : ' ' ≠ cq) :
    "  unknown-statuses(0x" ++ hex_pad 16 n ++ ")\n" ≠ q :=
  append3_ne_of_head_ne rfl hq hne

theorem unknown_features_chunk_ne (n : Nat) (q : String) {cq : Char}
    {tq : List Char} (hq : q.data = cq :: tq) (hne : ' ' ≠ cq) :
    "  unknown-features(0x" ++ hex_pad 16 n ++ ")\n" ≠ q :=
  append3_ne_of_head_ne rfl hq hne

/-! ## Claim C7 -/

/-- C7: for every non-empty string list of n elements, each virtio list
dumper emits exactly n-1 occurrences of the ",\n" separator and exactly one
bare "\n" terminator chunk after the last element; `dump_features` with an
empty second list (dev_features) omits that list entirely, including its
terminating newline (one "\n" in total), while a non-empty second list
contributes its own separators and terminator (two "\n" in total). -/
theorem virtio_dump_separators :
    (∀ p : VhostDeviceProtocols, p.protocols ≠ [] →
        (hmp_virtio_dump_protocols p).count ",\n" = p.protocols.length - 1 ∧
        (hmp_virtio_dump_protocols p).count "\n" = 1) ∧
    (∀ s : VirtioDeviceStatus, s.statuses ≠ [] →
        (hmp_virtio_dump_status s).count ",\n" = s.statuses.length - 1 ∧
        (hmp_virtio_dump_status s).count "\n" = 1) ∧
    (∀ f : VirtioDeviceFeatures, f.transports ≠ [] → f.dev_features = [] →
        (hmp_virtio_dump_features f).count ",\n" = f.transports.length - 1 ∧
        (hmp_virtio_dump_features f).count "\n" = 1) ∧
    (∀ f : VirtioDeviceFeatures, f.transports ≠ [] → f.dev_features ≠ [] →
        (hmp_virtio_dump_features f).count ",\n"
          = (f.transports.length - 1) + (f.dev_features.length - 1) ∧
        (hmp_virtio_dump_features f).count "\n" = 2) := by
  refine ⟨?_, ?_, ?_, ?_⟩
  · intro p hne
    have h1 : ",\n" ≠ ("  unknown-protocols(0x" ++ hex_pad 16 p.unknown_protocols ++ ")\n") :=
      Ne.symm (unknown_protocols_chunk_ne _ _ rfl (by decide))
    have h2 : "\n" ≠ ("  unknown-protocols(0x" ++ hex_pad 16 p.unknown_protocols ++ ")\n") :=
      Ne.symm (unknown_protocols_chunk_ne _ _ rfl (by decide))
    cases hu : p.has_unknown_protocols <;>
      simp [hmp_virtio_dump_protocols, hu, List.count_append, List.count_cons,
        List.count_nil, dump_str_list_count_sep p.protocols hne,
        dump_str_list_count_nl, h1, h2]
  · intro s hne
    have h1 : ",\n" ≠ ("  unknown-statuses(0x" ++ hex_pad 16 s.unknown_statuses ++ ")\n") :=
      Ne.symm (unknown_statuses_chunk_ne _ _ rfl (by decide))
    have h2 : "\n" ≠ ("  unknown-statuses(0x" ++ hex_pad 16 s.unknown_statuses ++ ")\n") :=
      Ne.symm (unknown_statuses_chunk_ne _ _ rfl (by decide))
    cases hu : s.has_unknown_statuses <;>
      simp [hmp_virtio_dump_status, hu, List.count_append, List.count_cons,
        List.count_nil, dump_str_list_count_sep s.statuses hne,
        dump_str_list_count_nl, h1, h2]
  · intro f hne hdev
    have h1 : ",\n" ≠ ("  unknown-features(0x" ++ hex_pad 16 f.unknown_dev_features ++ ")\n") :=
      Ne.symm (unknown_features_chunk_ne _ _ rfl (by decide))
    have h2 : "\n" ≠ ("  unknown-features(0x" ++ hex_pad 16 f.unknown_dev_features ++ ")\n") :=
      Ne.symm (unknown_features_chunk_ne _ _ rfl (by decide))
    cases hu : f.has_unknown_dev_features <;>
      simp [hmp_virtio_dump_features, hu, hdev, List.count_append,
        List.count_cons, List.count_nil,
        dump_str_list_count_sep f.transports hne, dump_str_list_count_nl,
        h1, h2]
  · intro f hne hdev
    have h1 : ",\n" ≠ ("  unknown-features(0x" ++ hex_pad 16 f.unknown_dev_features ++ ")\n") :=
      Ne.symm (unknown_features_chunk_ne _ _ rfl (by decide))
    have h2 : "\n" ≠ ("  unknown-features(0x" ++ hex_pad 16 f.unknown_dev_features ++ ")\n") :=
      Ne.symm (unknown_features_chunk_ne _ _ rfl (by decide))
    cases hu : f.has_unknown_dev_features <;>
      simp [hmp_virtio_dump_features, hu, hdev, List.count_append,
        List.count_cons, List.count_nil,
        dump_str_list_count_sep f.transports hne,
        dump_str_list_count_sep f.dev_features hdev,
        dump_str_list_count_nl, h1, h2]

/-- C7, witness: the theorem evaluated on concrete two-element lists. -/
theorem virtio_dump_separators_witness :
    (hmp_virtio_dump_protocols ⟨["p1", "p2"], false, 0⟩).count ",\n" = 1 ∧
    (hmp_virtio_dump_protocols ⟨["p1", "p2"], false, 0⟩).count "\n" = 1 :=
  virtio_dump_separators.1 ⟨["p1", "p2"], false, 0⟩ (by decide)

/-! ## Claim C10 -/

/-- C10: for an empty string list each virtio list dumper still emits
exactly one "\n" — a blank line — before the optional unknown-bits line: the
trailing newline is unconditional, not guarded on the list being
non-empty. -/
theorem virtio_dump_empty_list :
    (∀ s : VirtioDeviceStatus, s.statuses = [] →
        (hmp_virtio_dump_status s).head? = some "\n" ∧
        (hmp_virtio_dump_status s).count "\n" = 1) ∧
    (∀ p : VhostDeviceProtocols, p.protocols = [] →
        (hmp_virtio_dump_protocols p).head? = some "\n" ∧
        (hmp_virtio_dump_protocols p).count "\n" = 1) ∧
    (∀ f : VirtioDeviceFeatures, f.transports = [] → f.dev_features = [] →
        (hmp_virtio_dump_features f).head? = some "\n" ∧
        (hmp_virtio_dump_features f).count "\n" = 1) := by
  refine ⟨?_, ?_, ?_⟩
  · intro s hnil
    have h2 : "\n" ≠ ("  unknown-statuses(0x" ++ hex_pad 16 s.unknown_statuses ++ ")\n") :=
      Ne.symm (unknown_statuses_chunk_ne _ _ rfl (by decide))
    cases hu : s.has_unknown_statuses <;>
      simp [hmp_virtio_dump_status, hu, hnil, dump_str_list,
        List.count_cons, List.count_nil, h2]
  · intro p hnil
    have h2 : "\n" ≠ ("  unknown-protocols(0x" ++ hex_pad 16 p.unknown_protocols ++ ")\n") :=
      Ne.symm (unknown_protocols_chunk_ne _ _ rfl (by decide))
    cases hu : p.has_unknown_protocols <;>
      simp [hmp_virtio_dump_protocols, hu, hnil, dump_str_list,
        List.count_cons, List.count_nil, h2]
  · intro f htr hdev
    have h2 : "\n" ≠ ("  unknown-features(0x" ++ hex_pad 16 f.unknown_dev_features ++ ")\n") :=
      Ne.symm (unknown_features_chunk_ne _ _ rfl (by decide))
    cases hu : f.has_unknown_dev_features <;>
      simp [hmp_virtio_dump_features, hu, htr, hdev, dump_str_list,
        List.count_cons, List.count_nil, h2]

/-- C10, witness: the status dumper on an empty list with the unknown-bits
line present. -/
theorem virtio_dump_empty_list_witness :
    (hmp_virtio_dump_status ⟨[], true, 5⟩).head? = some "\n" ∧
    (hmp_virtio_dump_status ⟨[], true, 5⟩).count "\n" = 1 :=
  virtio_dump_empty_list.1 ⟨[], true, 5⟩ rfl

/-! ## Schema-value formatter lemmas -/

theorem print_stats_schema_value_head (v : StatsSchemaValue) :
    (print_stats_schema_value v).head?
      = some ("    " ++ v.name ++ " (" ++ StatsType_str v.type ++
          (if v.has_unit = true ∨ v.exponent ≠ 0 then ", " else "")) := rfl

theorem emit_ite_singleton (c : Prop) [Decidable c] (x : String) :
    emit (if c then [x] else []) = if c then x else "" := by
  by_cases h : c <;> simp [h, emit]

theorem schema_value_emit_exp0 (v : StatsSchemaValue) (hu : v.has_unit = true)
    (he : v.exponent = 0) :
    emit (print_stats_schema_value v)
      = "    " ++ v.name ++ " (" ++ StatsType_str v.type ++ ", " ++
          unit_text v ++ bucket_text v ++ ")" := by
  rcases v with ⟨name, ty, hunit, un, b, e, hbs, bs⟩
  simp only at hu he
  subst hu
  subst he
  cases un <;> by_cases hb10 : b = 10 <;> by_cases hb2 : b = 2 <;>
    (simp [print_stats_schema_value, unit_text, bucket_text, StatsUnit_str,
      hb10, hb2, si_prefix_str, iec_binary_prefix_str, emit_cons, emit_append,
      emit_nil, emit_ite_singleton, String.append_assoc, String.append_empty,
      String.empty_append] <;>
     (apply String.ext
      simp [String.data_append]))

theorem schema_value_emit_exp_other (v : StatsSchemaValue)
    (he : v.exponent ≠ 0)
    (hsi : ¬(v.base = 10 ∧ -18 ≤ v.exponent ∧ v.exponent ≤ 18 ∧
        v.exponent % 3 = 0))
    (hiec : ¬(v.base = 2 ∧ 0 ≤ v.exponent ∧ v.exponent ≤ 60 ∧
        v.exponent % 10 = 0)) :
    emit (print_stats_schema_value v)
      = "    " ++ v.name ++ " (" ++ StatsType_str v.type ++ ", " ++
          "* " ++ toString v.base ++ "^" ++ toString v.exponent ++
          (if v.has_unit = true then " " ++ StatsUnit_str v.unit else "") ++
          bucket_text v ++ ")" := by
  rcases v with ⟨name, ty, hunit, un, b, e, hbs, bs⟩
  simp only at he hsi hiec
  have hsi2 : ¬(b = 10 ∧ -18 ≤ e ∧ e ≤ 18 ∧ 3 ∣ e) := fun h =>
    hsi ⟨h.1, h.2.1, h.2.2.1, Int.emod_eq_zero_of_dvd h.2.2.2⟩
  have hiec2 : ¬(b = 2 ∧ 0 ≤ e ∧ e ≤ 60 ∧ 10 ∣ e) := fun h =>
    hiec ⟨h.1, h.2.1, h.2.2.1, Int.emod_eq_zero_of_dvd h.2.2.2⟩
  cases hunit <;> cases un <;>
    (simp [print_stats_schema_value, bucket_text, hsi, hiec, hsi2, hiec2, he,
      StatsUnit_str, emit_cons, emit_append, emit_nil, emit_ite_singleton,
      String.append_assoc, String.append_empty, String.empty_append] <;>
     (apply String.ext
      simp [String.data_append]))

/-! ## Claim C5 -/

/-- C5: the schema-value formatter emits the ", " separator after the type
name iff the entry has a unit or a non-zero exponent; with a unit and
exponent 0 it prints just the unit-letter (seconds/bytes) or the unit's
textual name; and for a non-zero exponent matching neither the SI condition
(base 10, exponent in [-18,18], multiple of 3) nor the IEC condition (base
2, exponent in [0,60], multiple of 10) it prints the "* base^exponent" form,
suppresses the unit-letter, and falls through to the textual unit name when
a unit is present. -/
theorem schema_value_formatter_spec :
    (∀ v : StatsSchemaValue,
        ((print_stats_schema_value v).head?
            = some ("    " ++ v.name ++ " (" ++ StatsType_str v.type ++ ", "))
          ↔ (v.has_unit = true ∨ v.exponent ≠ 0)) ∧
    (∀ v : StatsSchemaValue, v.has_unit = true → v.exponent = 0 →
        emit (print_stats_schema_value v)
          = "    " ++ v.name ++ " (" ++ StatsType_str v.type ++ ", " ++
              unit_text v ++ bucket_text v ++ ")") ∧
    (∀ v : StatsSchemaValue, v.exponent ≠ 0 →
        ¬(v.base = 10 ∧ -18 ≤ v.exponent ∧ v.exponent ≤ 18 ∧
            v.exponent % 3 = 0) →
        ¬(v.base = 2 ∧ 0 ≤ v.exponent ∧ v.exponent ≤ 60 ∧
            v.exponent % 10 = 0) →
        emit (print_stats_schema_value v)
          = "    " ++ v.name ++ " (" ++ StatsType_str v.type ++ ", " ++
              "* " ++ toString v.base ++ "^" ++ toString v.exponent ++
              (if v.has_unit = true then " " ++ StatsUnit_str v.unit else "") ++
              bucket_text v ++ ")") := by
  refine ⟨?_, schema_value_emit_exp0, schema_value_emit_exp_other⟩
  intro v
  rw [print_stats_schema_value_head]
  constructor
  · intro h
    by_cases hc : v.has_unit = true ∨ v.exponent ≠ 0
    · exact hc
    · exfalso
      rw [if_neg hc] at h
      injection h with h1
      have hlen := congrArg (fun s : String => s.data.length) h1
      simp [String.data_append] at hlen
  · intro hc
    rw [if_pos hc]

/-- C5, witness: the fall-through branch evaluated at exponent 7 with the
seconds unit. -/
theorem schema_value_formatter_spec_witness :
    emit (print_stats_schema_value ⟨"x", StatsType.cumulative, true,
        StatsUnit.seconds, 10, 7, false, 0⟩)
      = "    " ++ "x" ++ " (" ++ StatsType_str StatsType.cumulative ++ ", " ++
          "* " ++ toString (10 : Int) ++ "^" ++ toString (7 : Int) ++
          (if true = true then " " ++ StatsUnit_str StatsUnit.seconds else "") ++
          bucket_text ⟨"x", StatsType.cumulative, true, StatsUnit.seconds, 10,
            7, false, 0⟩ ++ ")" :=
  schema_value_formatter_spec.2.2
    ⟨"x", StatsType.cumulative, true, StatsUnit.seconds, 10, 7, false, 0⟩
    (by decide) (by decide) (by decide)
